import Mathlib

/-!
Shallow embedding of the Cody context-assembly core:
`src/lib/shared/src/chat/transcript/interaction.ts` (the `Interaction`
turn container and its Cody-ignore filtering) and
`src/lib/shared/src/chat/prompts/vscode-context/helpers.ts` (the
directory/test-file context scan and workspace pattern search).

Promises collapse to values, the VS Code workspace capability set is
passed in explicitly as functions, and JavaScript strings become Lean
`String`.  TypeScript `undefined`/optional fields become `Option`.
-/

/-! ## String helpers mirroring the JavaScript primitives used by the code -/

/-- JavaScript `s.split(c)` for a single-character separator: splits on every
occurrence, keeping empty pieces. -/
def splitOnCharGo (c : Char) : List Char → List Char → List (List Char)
  | [], cur => [cur.reverse]
  | d :: ds, cur =>
    if d == c then cur.reverse :: splitOnCharGo c ds []
    else splitOnCharGo c ds (d :: cur)

/-- JavaScript `s.split(c)` on a `String`. -/
def splitOnChar (c : Char) (s : String) : List String :=
  (splitOnCharGo c s.data []).map (fun l => String.mk l)

/-- List-level prefix test. -/
def isPrefixList [BEq α] : List α → List α → Bool
  | [], _ => true
  | _ :: _, [] => false
  | a :: as, b :: bs => a == b && isPrefixList as bs

/-- JavaScript `s.startsWith(pre)`. -/
def strStartsWith (s pre : String) : Bool :=
  isPrefixList pre.data s.data

/-- JavaScript `s.endsWith(suf)`. -/
def strEndsWith (s suf : String) : Bool :=
  isPrefixList suf.data.reverse s.data.reverse

/-- `vscode.Uri.joinPath(dir, name)`, collapsed to string concatenation with
a path separator. -/
def joinPath (dir name : String) : String :=
  dir ++ ("/") ++ name

/-! ## Data model: context fragments and the Interaction turn container -/

/-- Message speaker, `'human' | 'assistant'` in the source. -/
inductive Speaker where
  | human
  | assistant
  deriving DecidableEq, Repr

/-- `ContextFile` from `codebase-context/messages`: the provenance record a
human context fragment carries.  Only the fields read by the code under
verification are modelled. -/
structure ContextFile where
  fileName : String
  uri : Option String := none
  repoName : Option String := none
  source : Option String := none
  deriving DecidableEq, Repr

/-- `ContextMessage`: one context fragment (a chat message optionally
carrying file provenance). -/
structure ContextMessage where
  speaker : Speaker
  text : Option String := none
  file : Option ContextFile := none
  deriving DecidableEq, Repr

/-- `InteractionMessage` from `chat/transcript/messages`: a human or
assistant chat message with optional metadata. -/
structure InteractionMessage where
  speaker : Speaker
  text : Option String := none
  metadata : Option String := none
  deriving DecidableEq, Repr

/-- `PreciseContext` entries are opaque to the code under verification. -/
abbrev PreciseContext := String

/-- The `Interaction` class state.  The `fullContext` promise is collapsed
to its resolved value; methods that replace the promise in place are
modelled as returning an updated `Interaction`. -/
structure Interaction where
  humanMessage : InteractionMessage
  assistantMessage : InteractionMessage
  fullContext : List ContextMessage
  usedContextFiles : List ContextFile
  usedPreciseContext : List PreciseContext
  timestamp : String
  metadata : Option String := none
  deriving DecidableEq, Repr

/-- `InteractionJSON`: the serialized form produced by `toJSON`.  The
deprecated `context` field is optional in the interface. -/
structure InteractionJSON where
  humanMessage : InteractionMessage
  assistantMessage : InteractionMessage
  fullContext : List ContextMessage
  usedContextFiles : List ContextFile
  usedPreciseContext : List PreciseContext
  timestamp : String
  context : Option (List ContextMessage) := none
  deriving DecidableEq, Repr

/-! ## The Cody-ignore filter (`Interaction.removeCodyIgnoredFiles`)

`isCodyIgnoredFile` and `isCodyIgnoredFilePath` live in
`chat/context-filter` (an external rule set); they are taken as predicate
parameters `ign` and `ignPath`. -/

/-- The drop condition applied to one message by the loop body of
`removeCodyIgnoredFiles`: a human message carrying file info is dropped
when its `uri` is present and ignored, or when its source is
`embeddings` and its `repoName` is present (and non-empty, since an empty
string is falsy in JavaScript) with an ignored repo-relative path. -/
def shouldDropContextMessage (ign : String → Bool) (ignPath : String → String → Bool)
    (m : ContextMessage) : Bool :=
  match m.speaker, m.file with
  | Speaker.human, some f =>
    (match f.uri with
     | some u => ign u
     | none => false)
    ||
    (f.source == some ("embeddings") &&
     (match f.repoName with
      | some r => !r.isEmpty && ignPath r f.fileName
      | none => false))
  | _, _ => false

/-- Structural form of the filtering loop: when a message is dropped the
following element is skipped as well (`i++` inside the loop plus the
loop increment). -/
def removeIgnoredGo (dropIt : ContextMessage → Bool) : List ContextMessage → List ContextMessage
  | [] => []
  | m :: rest =>
    if dropIt m then
      match rest with
      | [] => []
      | _ :: rest2 => removeIgnoredGo dropIt rest2
    else m :: removeIgnoredGo dropIt rest

/-- Index-based form of the filtering loop, mirroring the `for` loop of
`removeCodyIgnoredFiles` literally (index `i`, `push` onto the result). -/
def removeIgnoredLoopGo (dropIt : ContextMessage → Bool) (msgs : List ContextMessage)
    (i : Nat) (newMessages : List ContextMessage) : List ContextMessage :=
  if h : i < msgs.length then
    if dropIt (msgs.get ⟨i, h⟩) then
      removeIgnoredLoopGo dropIt msgs (i + 2) newMessages
    else
      removeIgnoredLoopGo dropIt msgs (i + 1) (newMessages ++ [msgs.get ⟨i, h⟩])
  else newMessages
termination_by msgs.length - i

/-- The filtering loop of `removeCodyIgnoredFiles` run from index `0` with
an empty result array. -/
def removeCodyIgnoredFilesLoop (dropIt : ContextMessage → Bool)
    (contextMessages : List ContextMessage) : List ContextMessage :=
  removeIgnoredLoopGo dropIt contextMessages 0 []

/-- `Interaction.removeCodyIgnoredFiles`: filters the resolved context and
caches the filtered list back into the `fullContext` slot, returning the
filtered messages. -/
def Interaction.removeCodyIgnoredFiles (ign : String → Bool) (ignPath : String → String → Bool)
    (it : Interaction) : Interaction × List ContextMessage :=
  let newMessages := removeIgnoredGo (shouldDropContextMessage ign ignPath) it.fullContext
  ({ it with fullContext := newMessages }, newMessages)

/-- `Interaction.getFullContext`: filters, then returns a defensive copy of
each message (the `{ ...msg }` spread). -/
def Interaction.getFullContext (ign : String → Bool) (ignPath : String → String → Bool)
    (it : Interaction) : Interaction × List ContextMessage :=
  let res := it.removeCodyIgnoredFiles ign ignPath
  (res.1, res.2.map (fun msg => { speaker := msg.speaker, text := msg.text, file := msg.file }))

/-- `Interaction.toJSON`: serializes the current value of the context slot
and the other attributes.  The object literal in the source has no
`context` property, so the deprecated field is absent (`none`). -/
def Interaction.toJSON (it : Interaction) : InteractionJSON :=
  { humanMessage := it.humanMessage
    assistantMessage := it.assistantMessage
    fullContext := it.fullContext
    usedContextFiles := it.usedContextFiles
    usedPreciseContext := it.usedPreciseContext
    timestamp := it.timestamp
    context := none }

/-! ## The directory scan (`helpers.ts`)

The VS Code workspace capability set is passed in as a `ScanEnv`:
`stat` and `readDoc` model `vscode.workspace.fs.stat` / `fs.readFile`
(with `Except` for a rejected promise), `relPath` models
`vscode.workspace.asRelativePath`, `truncate` models
`truncateText · MAX_CURRENT_FILE_TOKENS` and `populate` models
`populateContextTemplateFromText` (both from `prompt/`, outside the
sources under verification). -/

/-- `vscode.FileType`. -/
inductive FileType where
  | file
  | directory
  | symbolicLink
  | unknown
  deriving DecidableEq, Repr

/-- The ambient workspace / prompt-utility capabilities consumed by the
directory scan. -/
structure ScanEnv where
  stat : String → Except Unit Nat
  readDoc : String → Except Unit String
  relPath : String → String
  truncate : String → String
  populate : String → String → String → String

/-- `decodeVSCodeTextDoc`: reads and decodes a file, returning the empty
string when the read fails (internal try/catch). -/
def decodeVSCodeTextDoc (env : ScanEnv) (fileUri : String) : String :=
  match env.readDoc fileUri with
  | Except.ok decoded => decoded
  | Except.error _ => ""

/-- Modelled from the spec: `getContextMessageWithResponse` (from
`codebase-context/messages`, not under the sources given) emits a
human/assistant fragment pair, the human half carrying the text and the
file reference, the assistant half carrying an acknowledgement payload. -/
def getContextMessageWithResponse (text : String) (file : ContextFile)
    (response : String := "Ok.") : List ContextMessage :=
  [ { speaker := Speaker.human, text := some text, file := some file },
    { speaker := Speaker.assistant, text := some response } ]

/-- The template string used for each scanned file. -/
def dirScanTemplateText : String := "Codebase context from file path \x7bfileName\x7d: "

/-- The base name the scan compares candidates against:
`currentFileName.split('/').pop()?.split('.').shift() || ''`. -/
def currentFileBaseName (currentFileName : String) : String :=
  (splitOnChar ('.') ((splitOnChar ('/') currentFileName).getLastD (""))).headD ("")

/-- Loop body of `getCurrentDirFilteredContext`: walks the directory
listing, skips over-sized/empty files and the current file, emits a
fragment pair per remaining file, and stops early on a name match with
the current file's base name or once `maxFiles` pairs were emitted.
`stat` is awaited outside any try/catch, so its error aborts the scan. -/
def getCurrentDirFilteredContextGo (env : ScanEnv) (dirUri currentFileName fileNameWithoutExt : String)
    (maxFiles : Nat) : List (String × FileType) → List ContextMessage →
    Except Unit (List ContextMessage)
  | [], contextMessages => Except.ok contextMessages
  | file :: rest, contextMessages =>
    let fileUri := joinPath dirUri file.1
    let fileName := env.relPath fileUri
    match env.stat fileUri with
    | Except.error e => Except.error e
    | Except.ok size =>
      if size > 1000000 ∨ size = 0 then
        getCurrentDirFilteredContextGo env dirUri currentFileName fileNameWithoutExt maxFiles
          rest contextMessages
      else if file.1 == currentFileName then
        getCurrentDirFilteredContextGo env dirUri currentFileName fileNameWithoutExt maxFiles
          rest contextMessages
      else
        let decoded := decodeVSCodeTextDoc env fileUri
        let truncatedContent := env.truncate decoded
        let contextMessage := getContextMessageWithResponse
          (env.populate dirScanTemplateText truncatedContent fileName) { fileName := fileName }
        let newMessages := contextMessages ++ contextMessage
        if strStartsWith file.1 fileNameWithoutExt || strEndsWith file.1 fileNameWithoutExt then
          Except.ok newMessages
        else if maxFiles * 2 ≤ newMessages.length then
          Except.ok newMessages
        else
          getCurrentDirFilteredContextGo env dirUri currentFileName fileNameWithoutExt maxFiles
            rest newMessages

/-- `getCurrentDirFilteredContext`: computes the current file's base name
and runs the scan loop. -/
def getCurrentDirFilteredContext (env : ScanEnv) (dirUri : String)
    (filesInDir : List (String × FileType)) (currentFileName : String)
    (maxFiles : Nat := 5) : Except Unit (List ContextMessage) :=
  getCurrentDirFilteredContextGo env dirUri currentFileName
    (currentFileBaseName currentFileName) maxFiles filesInDir []

/-- Loop body of `getDirContextMessages`: like the filtered scan but with
no current-file skip, no early exit and no cap. -/
def getDirContextMessagesGo (env : ScanEnv) (dirUri : String) :
    List (String × FileType) → List ContextMessage → Except Unit (List ContextMessage)
  | [], contextMessages => Except.ok contextMessages
  | file :: rest, contextMessages =>
    let fileUri := joinPath dirUri file.1
    let fileName := env.relPath fileUri
    match env.stat fileUri with
    | Except.error e => Except.error e
    | Except.ok size =>
      if size > 1000000 ∨ size = 0 then
        getDirContextMessagesGo env dirUri rest contextMessages
      else
        let decoded := decodeVSCodeTextDoc env fileUri
        let truncatedContent := env.truncate decoded
        let contextMessage := getContextMessageWithResponse
          (env.populate dirScanTemplateText truncatedContent fileName) { fileName := fileName }
        getDirContextMessagesGo env dirUri rest (contextMessages ++ contextMessage)

/-- `getDirContextMessages`. -/
def getDirContextMessages (env : ScanEnv) (dirUri : String)
    (filesInDir : List (String × FileType)) : Except Unit (List ContextMessage) :=
  getDirContextMessagesGo env dirUri filesInDir []

/-! ## Workspace pattern search (`findVSCodeFiles`) -/

/-- The underlying `vscode.workspace.findFiles` capability: pattern,
exclude pattern, maximum result count and the cancellation deadline in
milliseconds.  `Except.error` models a rejected promise, `Except.ok none`
models resolving with `undefined` (in particular a search cancelled by
the deadline), `Except.ok (some files)` models a successful search. -/
abbrev SearchFn := String → String → Nat → Nat → Except Unit (Option (List String))

/-- The default exclude pattern applied when no explicit exclude pattern
is given. -/
def defaultExcludePattern : String := "**/\x7b.*,node_modules,snap*\x7d/**"

/-- `findVSCodeFiles`: applies the default exclude pattern when none is
given, runs the search with a 20-second cancellation deadline, and maps a
rejected promise or an `undefined` result to the empty list. -/
def findVSCodeFiles (search : SearchFn) (globalPattern : String)
    (excludePattern : Option String) (maxResults : Nat := 3) : List String :=
  match search globalPattern (excludePattern.getD defaultExcludePattern) maxResults 20000 with
  | Except.error _ => []
  | Except.ok none => []
  | Except.ok (some files) => files

/-! ## Test-file search patterns and glob matching -/

/-- Node `path.extname`: the extension of the last path segment (empty for
a dotfile with no further dot). -/
def extname (p : String) : String :=
  let base := (splitOnChar ('/') p).getLastD ("")
  let parts := splitOnChar ('.') base
  match parts with
  | [] => ""
  | [_] => ""
  | _ :: rest =>
    if strStartsWith base (".") && parts.length == 2 then ""
    else ("." : String) ++ rest.getLastD ("")

/-- Node `path.basename(p, ext)`: the last path segment with a trailing
`ext` removed when it is a proper suffix. -/
def basename (p : String) (ext : String := "") : String :=
  let base := (splitOnChar ('/') p).getLastD ("")
  if !ext.isEmpty && strEndsWith base ext && ext.data.length < base.data.length then
    String.mk (base.data.take (base.data.length - ext.data.length))
  else base

/-- `createVSCodeTestSearchPattern`: derives the glob pattern used to find
test files for `fsPath`; with `allTestFiles` a generic `*test*` pattern,
otherwise an alternation of the five naming conventions sharing the
original extension. -/
def createVSCodeTestSearchPattern (fsPath : String) (allTestFiles : Bool := false) : String :=
  let fileExtension := extname fsPath
  let fileName := basename fsPath fileExtension
  let root := ("**" : String)
  let defaultTestFilePattern := ("/*test*") ++ fileExtension
  let currentTestFilePattern :=
    ("/*\x7btest_") ++ fileName ++ (",") ++ fileName ++ ("_test,test.") ++ fileName ++
    (",") ++ fileName ++ (".test,") ++ fileName ++ ("Test\x7d") ++ fileExtension
  if allTestFiles then root ++ defaultTestFilePattern
  else root ++ currentTestFilePattern

/-- All suffixes of `s` that start right after a `/`. -/
def afterSlashes : List Char → List (List Char)
  | [] => []
  | c :: cs => (if c == '/' then [cs] else []) ++ afterSlashes cs

/-- Segment starts of a path: the whole path and every suffix following a
path separator.  `**/` may consume any number of whole segments. -/
def segStarts (s : List Char) : List (List Char) :=
  s :: afterSlashes s

/-- Suffixes of `s` reachable by removing a (possibly empty) prefix of
non-separator characters.  A single `*` may consume any such prefix. -/
def nonSlashTails : List Char → List (List Char)
  | [] => [[]]
  | c :: cs => (c :: cs) :: (if c == '/' then [] else nonSlashTails cs)

/-- Glob matching for brace-free patterns, with VS Code semantics:
`**/` matches any number of whole path segments (including none), a
trailing `**` matches any remainder, `*` matches within a segment, and
any other character matches literally. -/
def globMatch : List Char → List Char → Bool
  | [], s => s.isEmpty
  | '*' :: '*' :: '/' :: ps, s => (segStarts s).any (fun t => globMatch ps t)
  | '*' :: '*' :: [], _ => true
  | '*' :: ps, s => (nonSlashTails s).any (fun t => globMatch ps t)
  | _ :: _, [] => false
  | c :: ps, d :: ds => c == d && globMatch ps ds

/-- Splits a character list at the first occurrence of `c`, if any. -/
def splitAtChar (c : Char) : List Char → Option (List Char × List Char)
  | [] => none
  | d :: ds =>
    if d == c then some ([], ds)
    else
      match splitAtChar c ds with
      | none => none
      | some (a, b) => some (d :: a, b)

/-- Splits a character list on every comma (the separator of a brace
alternation). -/
def splitCommas : List Char → List (List Char)
  | [] => [[]]
  | c :: cs =>
    if c == ',' then [] :: splitCommas cs
    else
      match splitCommas cs with
      | [] => [[c]]
      | a :: as => (c :: a) :: as

/-- Expands `\x7b...,...\x7d` alternations into the list of brace-free
patterns they stand for (fuelled recursion; the fuel is the pattern
length, which bounds the recursion depth). -/
def expandBracesFuel : Nat → List Char → List (List Char)
  | 0, p => [p]
  | fuel + 1, p =>
    match splitAtChar '\x7b' p with
    | none => [p]
    | some (pre, rest) =>
      match splitAtChar '\x7d' rest with
      | none => [p]
      | some (body, suffix) =>
        (splitCommas body).flatMap (fun alt =>
          (expandBracesFuel fuel suffix).map (fun e => pre ++ alt ++ e))

/-- Brace expansion of a glob pattern. -/
def expandBraces (p : List Char) : List (List Char) :=
  expandBracesFuel (p.length + 1) p

/-- Full glob matching: a pattern with brace alternations matches a path
iff one of its brace-free expansions matches. -/
def globMatchFull (pat : String) (s : String) : Bool :=
  (expandBraces pat.data).any (fun p => globMatch p s.data)

/-! ## Concrete data used by the scenario conjuncts, counterexamples and
witnesses -/

deriving instance DecidableEq for Except

/-- Scan environment whose files are all 10 bytes decoding to `code`, with
identity relative paths and truncation. -/
def plainScanEnv : ScanEnv :=
  { stat := fun _ => Except.ok 10
    readDoc := fun _ => Except.ok "code"
    relPath := fun s => s
    truncate := fun s => s
    populate := fun t c n => t ++ c ++ n }

/-- Scan environment in which `d/big.ts` is reported over the size cap. -/
def sizeScanEnv : ScanEnv :=
  { plainScanEnv with
    stat := fun u => if u == "d/big.ts" then Except.ok 2000000 else Except.ok 10 }

/-- Scan environment in which stat of `d/a.ts` rejects. -/
def statErrorScanEnv : ScanEnv :=
  { plainScanEnv with
    stat := fun u => if u == "d/a.ts" then Except.error () else Except.ok 10 }

/-- Scan environment in which reading `d/r.ts` rejects. -/
def readErrorScanEnv : ScanEnv :=
  { plainScanEnv with
    readDoc := fun u => if u == "d/r.ts" then Except.error () else Except.ok "code" }

/-- A concrete ignore rule set: one ignored URI. -/
def sampleIgn : String → Bool := fun u => u == "/w/ignored.ts"

/-- A concrete path rule set that ignores nothing. -/
def sampleIgnPath : String → String → Bool := fun _ _ => false

/-- Human fragment for the ignored file. -/
def ignoredHumanMsg : ContextMessage :=
  { speaker := Speaker.human, text := some "ignored code",
    file := some { fileName := "ignored.ts", uri := some "/w/ignored.ts" } }

/-- Assistant half of the ignored pair. -/
def ignoredAssistantMsg : ContextMessage :=
  { speaker := Speaker.assistant, text := some "Ok." }

/-- Human fragment for the allowed file. -/
def allowedHumanMsg : ContextMessage :=
  { speaker := Speaker.human, text := some "allowed code",
    file := some { fileName := "allowed.ts", uri := some "/w/allowed.ts" } }

/-- Assistant half of the allowed pair. -/
def allowedAssistantMsg : ContextMessage :=
  { speaker := Speaker.assistant, text := some "Ok." }

/-- An Interaction holding one ignored pair followed by one allowed pair. -/
def sampleInteraction : Interaction :=
  { humanMessage := { speaker := Speaker.human, text := some "question" }
    assistantMessage := { speaker := Speaker.assistant }
    fullContext := [ignoredHumanMsg, ignoredAssistantMsg, allowedHumanMsg, allowedAssistantMsg]
    usedContextFiles := []
    usedPreciseContext := []
    timestamp := "2023-01-01T00:00:00Z" }

/-- The sample Interaction after one `getFullContext` read (which caches the
filtered list back into the context slot). -/
def sampleInteractionAfterRead : Interaction :=
  (sampleInteraction.getFullContext sampleIgn sampleIgnPath).1

/-! ## Helper lemmas for the ignore filter -/

/-- One step of the structural filter on a cons cell with an arbitrary
tail. -/
theorem removeIgnoredGo_cons (dropIt : ContextMessage → Bool) (m : ContextMessage)
    (rest : List ContextMessage) :
    removeIgnoredGo dropIt (m :: rest) =
      if dropIt m then removeIgnoredGo dropIt rest.tail
      else m :: removeIgnoredGo dropIt rest := by
  cases rest <;> by_cases hd : dropIt m <;> simp [removeIgnoredGo, hd]

/-- The index-based loop from position `i` produces the accumulator followed
by the structural walk of the remaining suffix. -/
theorem removeIgnoredLoopGo_eq (dropIt : ContextMessage → Bool) (msgs : List ContextMessage)
    (i : Nat) (acc : List ContextMessage) :
    removeIgnoredLoopGo dropIt msgs i acc = acc ++ removeIgnoredGo dropIt (msgs.drop i) := by
  rw [removeIgnoredLoopGo]
  by_cases h : i < msgs.length
  · have hdrop : msgs.drop i = msgs[i] :: msgs.drop (i + 1) :=
      List.drop_eq_getElem_cons h
    simp only [dif_pos h, List.get_eq_getElem]
    by_cases hd : dropIt msgs[i]
    · rw [if_pos hd, removeIgnoredLoopGo_eq dropIt msgs (i + 2) acc, hdrop]
      cases hrest : msgs.drop (i + 1) with
      | nil =>
        have h2 : msgs.drop (i + 2) = [] := by
          have := congrArg List.tail hrest
          rwa [List.tail_drop] at this
        rw [h2]
        simp [removeIgnoredGo, hd]
      | cons r rest2 =>
        have h2 : msgs.drop (i + 2) = rest2 := by
          have := congrArg List.tail hrest
          rwa [List.tail_drop] at this
        rw [h2]
        simp [removeIgnoredGo, hd]
    · rw [if_neg hd, removeIgnoredLoopGo_eq dropIt msgs (i + 1) (acc ++ [msgs[i]]), hdrop,
        removeIgnoredGo_cons, if_neg hd]
      simp only [List.append_assoc, List.singleton_append]
  · have hdrop : msgs.drop i = [] := List.drop_eq_nil_of_le (Nat.le_of_not_lt h)
    simp [dif_neg h, hdrop, removeIgnoredGo]
termination_by msgs.length - i

/-- Every message surviving the filter fails the drop condition. -/
theorem removeIgnoredGo_not_dropped (dropIt : ContextMessage → Bool) :
    ∀ (msgs : List ContextMessage), ∀ m ∈ removeIgnoredGo dropIt msgs, dropIt m = false
  | [] => by simp [removeIgnoredGo]
  | [m0] => by
    intro m hm
    by_cases hd : dropIt m0 <;> simp [removeIgnoredGo, hd] at hm
    subst hm
    simpa using hd
  | m0 :: m1 :: rest => by
    intro m hm
    by_cases hd : dropIt m0
    · simp only [removeIgnoredGo, hd, if_true] at hm
      exact removeIgnoredGo_not_dropped dropIt rest m hm
    · simp [removeIgnoredGo, hd] at hm
      rcases hm with hm | hm
      · subst hm
        simpa using hd
      · exact removeIgnoredGo_not_dropped dropIt (m1 :: rest) m (by simpa [removeIgnoredGo, hd])

/-- The filter keeps a sequence none of whose members satisfies the drop
condition. -/
theorem removeIgnoredGo_of_all_kept (dropIt : ContextMessage → Bool) :
    ∀ (msgs : List ContextMessage), (∀ m ∈ msgs, dropIt m = false) →
      removeIgnoredGo dropIt msgs = msgs
  | [] => by intro _; simp [removeIgnoredGo]
  | m0 :: rest => by
    intro hall
    have h0 : dropIt m0 = false := hall m0 (List.mem_cons_self m0 rest)
    have hrest := removeIgnoredGo_of_all_kept dropIt rest
      (fun m hm => hall m (List.mem_cons_of_mem m0 hm))
    simp [removeIgnoredGo_cons, h0, hrest]

/-- The defensive copy in `getFullContext` is the identity on the value
level. -/
theorem copyContextMessage_map_id (l : List ContextMessage) :
    l.map (fun msg => ({ speaker := msg.speaker, text := msg.text, file := msg.file } :
      ContextMessage)) = l := by
  induction l with
  | nil => rfl
  | cons m rest ih => simp [ih]

/-- C1: `getFullContext` returns exactly the in-order walk of the fragment
sequence that drops each ignorable human fragment together with exactly one
immediately following element and retains every other fragment: the result
equals the literal index-based loop of `removeCodyIgnoredFiles` run over
the held sequence; and on an Interaction holding one ignored-file
human/assistant pair followed by one allowed pair it returns exactly the
allowed pair. -/
theorem c1_getFullContext_filters_ignored_pairs :
    (∀ (ign : String → Bool) (ignPath : String → String → Bool) (it : Interaction),
        (it.getFullContext ign ignPath).2 =
          removeCodyIgnoredFilesLoop (shouldDropContextMessage ign ignPath) it.fullContext)
    ∧ (sampleInteraction.getFullContext sampleIgn sampleIgnPath).2 =
        [allowedHumanMsg, allowedAssistantMsg] := by
  constructor
  · intro ign ignPath it
    unfold Interaction.getFullContext Interaction.removeCodyIgnoredFiles
      removeCodyIgnoredFilesLoop
    rw [removeIgnoredLoopGo_eq]
    simp [copyContextMessage_map_id]
  · decide

/-- C2: the ignore filter is idempotent — both at the list level (running
the filter of `removeCodyIgnoredFiles` on its own output changes nothing)
and at the Interaction level (re-filtering the Interaction returned by
`removeCodyIgnoredFiles` yields the same messages). -/
theorem c2_removeCodyIgnoredFiles_idempotent :
    (∀ (ign : String → Bool) (ignPath : String → String → Bool)
        (msgs : List ContextMessage),
        removeIgnoredGo (shouldDropContextMessage ign ignPath)
            (removeIgnoredGo (shouldDropContextMessage ign ignPath) msgs) =
          removeIgnoredGo (shouldDropContextMessage ign ignPath) msgs)
    ∧ (∀ (ign : String → Bool) (ignPath : String → String → Bool) (it : Interaction),
        ((it.removeCodyIgnoredFiles ign ignPath).1.removeCodyIgnoredFiles ign ignPath).2 =
          (it.removeCodyIgnoredFiles ign ignPath).2) := by
  have hlist : ∀ (ign : String → Bool) (ignPath : String → String → Bool)
      (msgs : List ContextMessage),
      removeIgnoredGo (shouldDropContextMessage ign ignPath)
          (removeIgnoredGo (shouldDropContextMessage ign ignPath) msgs) =
        removeIgnoredGo (shouldDropContextMessage ign ignPath) msgs := by
    intro ign ignPath msgs
    exact removeIgnoredGo_of_all_kept _ _
      (removeIgnoredGo_not_dropped (shouldDropContextMessage ign ignPath) msgs)
  refine ⟨hlist, fun ign ignPath it => ?_⟩
  unfold Interaction.removeCodyIgnoredFiles
  simp [hlist]

/-- C3 counterexample: after one `getFullContext` read on an Interaction
with an ignored pair, `toJSON` emits no deprecated `context` field at all
(`none`, not a mirror of `fullContext`) and its `fullContext` field holds
the filtered fragments, not the raw resolved ones. -/
theorem c3_toJSON_counterexample :
    sampleInteractionAfterRead.toJSON.context = none
    ∧ (sampleInteractionAfterRead.toJSON.fullContext == sampleInteraction.fullContext) = false := by
  constructor
  · rfl
  · decide

/-- C3 amended: `toJSON` serializes the current value of the context slot —
the raw resolved fragments only as long as no filtered read happened, the
cached filtered fragments after a `getFullContext` read — and never emits
the deprecated `context` field (it exists only for reading legacy data). -/
theorem c3_toJSON_serializes_current_slot :
    ∀ (ign : String → Bool) (ignPath : String → String → Bool) (it : Interaction),
      it.toJSON.fullContext = it.fullContext
      ∧ it.toJSON.context = none
      ∧ ((it.getFullContext ign ignPath).1).toJSON.fullContext =
          removeIgnoredGo (shouldDropContextMessage ign ignPath) it.fullContext := by
  intro ign ignPath it
  exact ⟨rfl, rfl, rfl⟩

/-! ## Helper lemmas for the directory scan -/

/-- A fragment pair has exactly two messages. -/
theorem getContextMessageWithResponse_length (t : String) (f : ContextFile) (r : String) :
    (getContextMessageWithResponse t f r).length = 2 := rfl

/-- Appending with a separator on a fixed left side is injective on the
right side. -/
theorem joinPath_right_inj (dir : String) : ∀ a b : String,
    joinPath dir a = joinPath dir b → a = b := by
  intro a b h
  unfold joinPath at h
  have hd := congrArg String.data h
  simp [String.data_append] at hd
  cases a; cases b; simp_all

/-- The scan loop emits at most `maxFiles` fragment pairs beyond an even
accumulator that is still under the cap. -/
theorem getCurrentDirFilteredContextGo_length_le (env : ScanEnv)
    (dirUri cur base : String) (maxFiles : Nat) :
    ∀ (files : List (String × FileType)) (acc out : List ContextMessage),
      acc.length % 2 = 0 → acc.length < maxFiles * 2 →
      getCurrentDirFilteredContextGo env dirUri cur base maxFiles files acc = Except.ok out →
      out.length ≤ maxFiles * 2
  | [] => by
    intro acc out h1 h2 hout
    simp only [getCurrentDirFilteredContextGo] at hout
    injection hout with h
    subst h
    omega
  | f :: rest => by
    intro acc out h1 h2 hout
    simp only [getCurrentDirFilteredContextGo] at hout
    split at hout
    · exact absurd hout (by simp)
    · split at hout
      · exact getCurrentDirFilteredContextGo_length_le env dirUri cur base maxFiles
          rest acc out h1 h2 hout
      · split at hout
        · exact getCurrentDirFilteredContextGo_length_le env dirUri cur base maxFiles
            rest acc out h1 h2 hout
        · split at hout
          · injection hout with h
            subst h
            simp only [List.length_append, getContextMessageWithResponse_length]
            omega
          · split at hout
            · injection hout with h
              subst h
              simp only [List.length_append, getContextMessageWithResponse_length]
              omega
            · refine getCurrentDirFilteredContextGo_length_le env dirUri cur base maxFiles
                rest _ out ?_ ?_ hout
              · simp only [List.length_append, getContextMessageWithResponse_length]
                omega
              · rename_i hcap
                simp only [List.length_append, getContextMessageWithResponse_length] at hcap ⊢
                omega

/-- No fragment whose file is reported with a bad size (zero or above the
1 MB cap) is ever emitted by the filtered scan loop. -/
theorem getCurrentDirFilteredContextGo_no_skipped_file (env : ScanEnv)
    (dirUri cur base : String) (maxFiles : Nat) (name : String) (sz : Nat)
    (hstat : env.stat (joinPath dirUri name) = Except.ok sz)
    (hbad : sz = 0 ∨ 1000000 < sz)
    (hinj : ∀ a b : String,
      env.relPath (joinPath dirUri a) = env.relPath (joinPath dirUri b) → a = b) :
    ∀ (files : List (String × FileType)) (acc out : List ContextMessage),
      (∀ m ∈ acc, ∀ cf, m.file = some cf →
        (cf.fileName == env.relPath (joinPath dirUri name)) = false) →
      getCurrentDirFilteredContextGo env dirUri cur base maxFiles files acc = Except.ok out →
      ∀ m ∈ out, ∀ cf, m.file = some cf →
        (cf.fileName == env.relPath (joinPath dirUri name)) = false
  | [] => by
    intro acc out hacc hout
    simp only [getCurrentDirFilteredContextGo] at hout
    injection hout with h
    subst h
    exact hacc
  | f :: rest => by
    intro acc out hacc hout
    simp only [getCurrentDirFilteredContextGo] at hout
    split at hout
    · exact absurd hout (by simp)
    · rename_i size hsz
      split at hout
      · exact getCurrentDirFilteredContextGo_no_skipped_file env dirUri cur base maxFiles
          name sz hstat hbad hinj rest acc out hacc hout
      · rename_i hszcond
        split at hout
        · exact getCurrentDirFilteredContextGo_no_skipped_file env dirUri cur base maxFiles
            name sz hstat hbad hinj rest acc out hacc hout
        · have haccnew : ∀ m ∈ acc ++ getContextMessageWithResponse
              (env.populate dirScanTemplateText
                (env.truncate (decodeVSCodeTextDoc env (joinPath dirUri f.1)))
                (env.relPath (joinPath dirUri f.1)))
              { fileName := env.relPath (joinPath dirUri f.1) },
              ∀ cf, m.file = some cf →
                (cf.fileName == env.relPath (joinPath dirUri name)) = false := by
            intro m hm cf hcf
            rcases List.mem_append.mp hm with hm | hm
            · exact hacc m hm cf hcf
            · simp only [getContextMessageWithResponse, List.mem_cons,
                List.not_mem_nil, or_false] at hm
              rcases hm with hm | hm
              · subst hm
                injection hcf with hcf2
                subst hcf2
                by_contra hne
                have heq : env.relPath (joinPath dirUri f.1) =
                    env.relPath (joinPath dirUri name) := by
                  simpa using hne
                have hfn : f.1 = name := hinj f.1 name heq
                rw [hfn, hstat] at hsz
                injection hsz with hs
                subst hs
                exact hszcond (by omega)
              · subst hm
                simp at hcf
          split at hout
          · injection hout with h
            subst h
            exact haccnew
          · split at hout
            · injection hout with h
              subst h
              exact haccnew
            · exact getCurrentDirFilteredContextGo_no_skipped_file env dirUri cur base maxFiles
                name sz hstat hbad hinj rest _ out haccnew hout

/-- The unfiltered directory loop also never emits a fragment for a file
reported with a bad size. -/
theorem getDirContextMessagesGo_no_skipped_file (env : ScanEnv)
    (dirUri : String) (name : String) (sz : Nat)
    (hstat : env.stat (joinPath dirUri name) = Except.ok sz)
    (hbad : sz = 0 ∨ 1000000 < sz)
    (hinj : ∀ a b : String,
      env.relPath (joinPath dirUri a) = env.relPath (joinPath dirUri b) → a = b) :
    ∀ (files : List (String × FileType)) (acc out : List ContextMessage),
      (∀ m ∈ acc, ∀ cf, m.file = some cf →
        (cf.fileName == env.relPath (joinPath dirUri name)) = false) →
      getDirContextMessagesGo env dirUri files acc = Except.ok out →
      ∀ m ∈ out, ∀ cf, m.file = some cf →
        (cf.fileName == env.relPath (joinPath dirUri name)) = false
  | [] => by
    intro acc out hacc hout
    simp only [getDirContextMessagesGo] at hout
    injection hout with h
    subst h
    exact hacc
  | f :: rest => by
    intro acc out hacc hout
    simp only [getDirContextMessagesGo] at hout
    split at hout
    · exact absurd hout (by simp)
    · rename_i size hsz
      split at hout
      · exact getDirContextMessagesGo_no_skipped_file env dirUri name sz hstat hbad hinj
          rest acc out hacc hout
      · rename_i hszcond
        refine getDirContextMessagesGo_no_skipped_file env dirUri name sz hstat hbad hinj
          rest _ out ?_ hout
        intro m hm cf hcf
        rcases List.mem_append.mp hm with hm | hm
        · exact hacc m hm cf hcf
        · simp only [getContextMessageWithResponse, List.mem_cons,
            List.not_mem_nil, or_false] at hm
          rcases hm with hm | hm
          · subst hm
            injection hcf with hcf2
            subst hcf2
            by_contra hne
            have heq : env.relPath (joinPath dirUri f.1) =
                env.relPath (joinPath dirUri name) := by
              simpa using hne
            have hfn : f.1 = name := hinj f.1 name heq
            rw [hfn, hstat] at hsz
            injection hsz with hs
            subst hs
            exact hszcond (by omega)
          · subst hm
            simp at hcf

/-- The filtered scan loop only ever rejects through a `stat` rejection:
when every listed candidate stats successfully, the loop succeeds. -/
theorem getCurrentDirFilteredContextGo_isOk (env : ScanEnv)
    (dirUri cur base : String) (maxFiles : Nat) :
    ∀ (files : List (String × FileType)) (acc : List ContextMessage),
      (∀ f ∈ files, (env.stat (joinPath dirUri f.1)).isOk = true) →
      (getCurrentDirFilteredContextGo env dirUri cur base maxFiles files acc).isOk = true
  | [], acc => by
    intro _
    simp [getCurrentDirFilteredContextGo, Except.isOk, Except.toBool]
  | f :: rest, acc => by
    intro hall
    have hf : (env.stat (joinPath dirUri f.1)).isOk = true :=
      hall f (List.mem_cons_self f rest)
    have htail : ∀ g ∈ rest, (env.stat (joinPath dirUri g.1)).isOk = true :=
      fun g hg => hall g (List.mem_cons_of_mem f hg)
    simp only [getCurrentDirFilteredContextGo]
    split
    · rename_i e he
      rw [he] at hf
      simp [Except.isOk, Except.toBool] at hf
    · split
      · exact getCurrentDirFilteredContextGo_isOk env dirUri cur base maxFiles rest acc htail
      · split
        · exact getCurrentDirFilteredContextGo_isOk env dirUri cur base maxFiles rest acc htail
        · split
          · simp [Except.isOk, Except.toBool]
          · split
            · simp [Except.isOk, Except.toBool]
            · exact getCurrentDirFilteredContextGo_isOk env dirUri cur base maxFiles rest _ htail

/-- C4: a candidate whose reported size is `0` or greater than `1000000`
bytes contributes no fragment to either directory scan's result: every
emitted fragment's file reference differs from that candidate's relative
path (relative-path resolution assumed injective over the directory). -/
theorem c4_size_ceiling_skips_file (env : ScanEnv) (dirUri currentFileName : String)
    (filesInDir : List (String × FileType)) (maxFiles : Nat) (name : String) (sz : Nat)
    (hstat : env.stat (joinPath dirUri name) = Except.ok sz)
    (hbad : sz = 0 ∨ 1000000 < sz)
    (hinj : ∀ a b : String,
      env.relPath (joinPath dirUri a) = env.relPath (joinPath dirUri b) → a = b)
    (out1 out2 : List ContextMessage)
    (h1 : getCurrentDirFilteredContext env dirUri filesInDir currentFileName maxFiles =
      Except.ok out1)
    (h2 : getDirContextMessages env dirUri filesInDir = Except.ok out2)
    (m : ContextMessage) (hm : m ∈ out1 ∨ m ∈ out2)
    (cf : ContextFile) (hcf : m.file = some cf) :
    (cf.fileName == env.relPath (joinPath dirUri name)) = false := by
  rcases hm with hm | hm
  · exact getCurrentDirFilteredContextGo_no_skipped_file env dirUri currentFileName
      (currentFileBaseName currentFileName) maxFiles name sz hstat hbad hinj
      filesInDir [] out1 (by simp) h1 m hm cf hcf
  · exact getDirContextMessagesGo_no_skipped_file env dirUri name sz hstat hbad hinj
      filesInDir [] out2 (by simp) h2 m hm cf hcf

/-- The fragment pair both C4 and C6 witnesses read off the concrete scan. -/
def okFileWitnessMsg : ContextMessage :=
  { speaker := Speaker.human, text := some (dirScanTemplateText ++ "code" ++ "d/ok.ts"),
    file := some { fileName := "d/ok.ts" } }

/-- The concrete scan output of the C4 witness. -/
def c4WitnessOut : List ContextMessage :=
  getContextMessageWithResponse (dirScanTemplateText ++ "code" ++ "d/ok.ts")
    { fileName := "d/ok.ts" }

/-- C4 witness: in a directory holding an over-sized `big.ts` and a normal
`ok.ts`, the emitted fragment's file is not `big.ts`. -/
theorem c4_size_ceiling_skips_file_witness :
    ((({ fileName := "d/ok.ts" } : ContextFile)).fileName ==
      sizeScanEnv.relPath (joinPath "d" "big.ts")) = false :=
  c4_size_ceiling_skips_file sizeScanEnv "d" "cur.ts"
    [("big.ts", FileType.file), ("ok.ts", FileType.file)] 5 "big.ts" 2000000
    (by decide) (by omega)
    (fun a b h => joinPath_right_inj "d" a b h)
    c4WitnessOut c4WitnessOut (by decide) (by decide)
    okFileWitnessMsg (Or.inl (by decide)) { fileName := "d/ok.ts" } (by decide)

/-- C5 counterexample: for target `foo.ts` the candidate `xfoo.py`,
stripped of its extension, is a suffix match of the base name `foo`, yet
the scan does not return immediately after its fragment pair — it
continues and also emits the pair of the following `other.ts`, returning
four messages instead of two. -/
theorem c5_early_exit_counterexample :
    basename "xfoo.py" (extname "xfoo.py") = "xfoo"
    ∧ strEndsWith "xfoo" (currentFileBaseName "foo.ts") = true
    ∧ (getCurrentDirFilteredContext plainScanEnv "d"
        [("xfoo.py", FileType.file), ("other.ts", FileType.file)] "foo.ts" 5).map
        List.length = Except.ok 4 :=
  ⟨by decide, by decide, by decide⟩

/-- C5 amended: the early exit fires on the candidate's full file name,
extension included.  First conjunct: whenever the scan loop reaches such a
candidate — at any position of the listing, with any fragments accumulated
so far and any candidates still pending — it returns immediately with the
accumulated fragments followed by that candidate's just-emitted pair,
regardless of `maxFiles`.  Second conjunct: in particular, a matching
first entry makes the whole scan return exactly its pair. -/
theorem c5_amended_early_exit :
    (∀ (env : ScanEnv) (dirUri currentFileName fileNameWithoutExt : String)
        (f : String × FileType) (rest : List (String × FileType))
        (acc : List ContextMessage) (maxFiles : Nat) (sz : Nat),
        env.stat (joinPath dirUri f.1) = Except.ok sz →
        ¬(sz > 1000000 ∨ sz = 0) →
        (f.1 == currentFileName) = false →
        (strStartsWith f.1 fileNameWithoutExt || strEndsWith f.1 fileNameWithoutExt) = true →
        getCurrentDirFilteredContextGo env dirUri currentFileName fileNameWithoutExt
            maxFiles (f :: rest) acc =
          Except.ok (acc ++ getContextMessageWithResponse
            (env.populate dirScanTemplateText
              (env.truncate (decodeVSCodeTextDoc env (joinPath dirUri f.1)))
              (env.relPath (joinPath dirUri f.1)))
            { fileName := env.relPath (joinPath dirUri f.1) }))
    ∧ (∀ (env : ScanEnv) (dirUri currentFileName : String)
        (f : String × FileType) (tail : List (String × FileType)) (maxFiles : Nat) (sz : Nat),
        env.stat (joinPath dirUri f.1) = Except.ok sz →
        ¬(sz > 1000000 ∨ sz = 0) →
        (f.1 == currentFileName) = false →
        (strStartsWith f.1 (currentFileBaseName currentFileName)
          || strEndsWith f.1 (currentFileBaseName currentFileName)) = true →
        getCurrentDirFilteredContext env dirUri (f :: tail) currentFileName maxFiles =
          Except.ok (getContextMessageWithResponse
            (env.populate dirScanTemplateText
              (env.truncate (decodeVSCodeTextDoc env (joinPath dirUri f.1)))
              (env.relPath (joinPath dirUri f.1)))
            { fileName := env.relPath (joinPath dirUri f.1) })) := by
  have hgen : ∀ (env : ScanEnv) (dirUri currentFileName fileNameWithoutExt : String)
      (f : String × FileType) (rest : List (String × FileType))
      (acc : List ContextMessage) (maxFiles : Nat) (sz : Nat),
      env.stat (joinPath dirUri f.1) = Except.ok sz →
      ¬(sz > 1000000 ∨ sz = 0) →
      (f.1 == currentFileName) = false →
      (strStartsWith f.1 fileNameWithoutExt || strEndsWith f.1 fileNameWithoutExt) = true →
      getCurrentDirFilteredContextGo env dirUri currentFileName fileNameWithoutExt
          maxFiles (f :: rest) acc =
        Except.ok (acc ++ getContextMessageWithResponse
          (env.populate dirScanTemplateText
            (env.truncate (decodeVSCodeTextDoc env (joinPath dirUri f.1)))
            (env.relPath (joinPath dirUri f.1)))
          { fileName := env.relPath (joinPath dirUri f.1) }) := by
    intro env dirUri currentFileName fileNameWithoutExt f rest acc maxFiles sz
      hstat hsz hne hmatch
    simp only [getCurrentDirFilteredContextGo, hstat, hne, hmatch, if_neg hsz,
      Bool.false_eq_true, if_false, if_true]
  refine ⟨hgen, ?_⟩
  intro env dirUri currentFileName f tail maxFiles sz hstat hsz hne hmatch
  have h := hgen env dirUri currentFileName (currentFileBaseName currentFileName)
    f tail [] maxFiles sz hstat hsz hne hmatch
  unfold getCurrentDirFilteredContext
  simpa using h

/-- The pair accumulated before the C5 witness's matching candidate is
reached. -/
def c5WitnessPrior : List ContextMessage :=
  getContextMessageWithResponse (dirScanTemplateText ++ "code" ++ "d/other.ts")
    { fileName := "d/other.ts" }

/-- C5 witness: target `foo.ts`, the matching candidate `foo.test.ts`
reached mid-scan with one pair already accumulated and `zzz.ts` still
pending — the loop returns immediately with the accumulated pair followed
by `foo.test.ts`'s pair, though `maxFiles = 5` was not reached. -/
theorem c5_amended_early_exit_witness :
    getCurrentDirFilteredContextGo plainScanEnv "d" "foo.ts"
      (currentFileBaseName "foo.ts") 5
      [("foo.test.ts", FileType.file), ("zzz.ts", FileType.file)] c5WitnessPrior =
      Except.ok (c5WitnessPrior ++ getContextMessageWithResponse
        (plainScanEnv.populate dirScanTemplateText
          (plainScanEnv.truncate (decodeVSCodeTextDoc plainScanEnv (joinPath "d" "foo.test.ts")))
          (plainScanEnv.relPath (joinPath "d" "foo.test.ts")))
        { fileName := plainScanEnv.relPath (joinPath "d" "foo.test.ts") }) :=
  c5_amended_early_exit.1 plainScanEnv "d" "foo.ts" (currentFileBaseName "foo.ts")
    ("foo.test.ts", FileType.file) [("zzz.ts", FileType.file)] c5WitnessPrior 5 10
    rfl (by omega) (by decide) (by decide)

/-- C6 counterexample: with `maxFiles = 0` the scan still emits one full
fragment pair for the first good candidate, because the cap is only
checked after an emission — two messages, though the claim allows at most
`2 * 0 = 0`. -/
theorem c6_cap_counterexample :
    (getCurrentDirFilteredContext plainScanEnv "d" [("a.ts", FileType.file)] "cur.ts" 0).map
      List.length = Except.ok 2
    ∧ ¬(2 ≤ 0 * 2) :=
  ⟨by decide, by omega⟩

/-- C6 amended: for every positive `maxFiles` bound the scan emits at most
`maxFiles` fragment pairs, i.e. at most `2 * maxFiles` context messages
(with `maxFiles = 0` the code still emits the first pair, since the cap
check runs only after an emission). -/
theorem c6_amended_cap (env : ScanEnv) (dirUri currentFileName : String)
    (filesInDir : List (String × FileType)) (maxFiles : Nat) (out : List ContextMessage)
    (hmax : 1 ≤ maxFiles)
    (hout : getCurrentDirFilteredContext env dirUri filesInDir currentFileName maxFiles =
      Except.ok out) :
    out.length ≤ maxFiles * 2 :=
  getCurrentDirFilteredContextGo_length_le env dirUri currentFileName
    (currentFileBaseName currentFileName) maxFiles filesInDir [] out (by simp)
    (by simp only [List.length_nil]; omega) hout

/-- The concrete scan output of the C6 witness. -/
def c6WitnessOut : List ContextMessage :=
  getContextMessageWithResponse (dirScanTemplateText ++ "code" ++ "d/a.ts")
    { fileName := "d/a.ts" }

/-- C6 witness: one good candidate under `maxFiles = 1` yields two
messages, within the `2 * maxFiles` bound. -/
theorem c6_amended_cap_witness : c6WitnessOut.length ≤ 1 * 2 :=
  c6_amended_cap plainScanEnv "d" "cur.ts" [("a.ts", FileType.file)] 1 c6WitnessOut
    (by omega) (by decide)

/-- C8 counterexample: a `stat` rejection on the first candidate rejects the
whole scan — `Except.error`, no fragments, though the remaining candidate
`b.ts` alone would have produced its pair (second conjunct). -/
theorem c8_stat_error_counterexample :
    getCurrentDirFilteredContext statErrorScanEnv "d"
      [("a.ts", FileType.file), ("b.ts", FileType.file)] "cur.ts" 5 = Except.error ()
    ∧ (getCurrentDirFilteredContext statErrorScanEnv "d" [("b.ts", FileType.file)]
        "cur.ts" 5).map List.length = Except.ok 2 :=
  ⟨by decide, by decide⟩

/-- Every successful run of the scan loop returns its accumulator extended
on the right: what was already emitted persists into the result. -/
theorem getCurrentDirFilteredContextGo_acc_persists (env : ScanEnv)
    (dirUri cur base : String) (maxFiles : Nat) :
    ∀ (files : List (String × FileType)) (acc out : List ContextMessage),
      getCurrentDirFilteredContextGo env dirUri cur base maxFiles files acc = Except.ok out →
      List.IsPrefix acc out
  | [] => by
    intro acc out hout
    simp only [getCurrentDirFilteredContextGo] at hout
    injection hout with h
    subst h
    exact List.prefix_rfl
  | f :: rest => by
    intro acc out hout
    simp only [getCurrentDirFilteredContextGo] at hout
    split at hout
    · exact absurd hout (by simp)
    · split at hout
      · exact getCurrentDirFilteredContextGo_acc_persists env dirUri cur base maxFiles
          rest acc out hout
      · split at hout
        · exact getCurrentDirFilteredContextGo_acc_persists env dirUri cur base maxFiles
            rest acc out hout
        · split at hout
          · injection hout with h
            subst h
            exact List.prefix_append acc _
          · split at hout
            · injection hout with h
              subst h
              exact List.prefix_append acc _
            · exact List.IsPrefix.trans (List.prefix_append acc _)
                (getCurrentDirFilteredContextGo_acc_persists env dirUri cur base maxFiles
                  rest _ out hout)

/-- C8 amended: read/decode errors on an individual file are swallowed and
never abort the scan — when every candidate stats successfully the scan
succeeds whatever the reads do (first conjunct) — and the file is not
skipped: at whatever position of the listing the scan reaches a file whose
read rejects, with whatever fragments already accumulated, its fragment
pair built from the empty string is emitted right after them and persists
as a prefix of the successful result (second conjunct); for a singleton
listing the result is exactly that empty-content pair (third conjunct).
A `stat` rejection, by contrast, is not caught and aborts the entire
scan. -/
theorem c8_amended_error_policy :
    (∀ (env : ScanEnv) (dirUri currentFileName : String) (maxFiles : Nat)
        (filesInDir : List (String × FileType)),
        (∀ f ∈ filesInDir, (env.stat (joinPath dirUri f.1)).isOk = true) →
        (getCurrentDirFilteredContext env dirUri filesInDir currentFileName maxFiles).isOk =
          true)
    ∧ (∀ (env : ScanEnv) (dirUri currentFileName fileNameWithoutExt : String)
        (maxFiles : Nat) (f : String × FileType) (rest : List (String × FileType))
        (acc out : List ContextMessage) (sz : Nat),
        env.stat (joinPath dirUri f.1) = Except.ok sz →
        ¬(sz > 1000000 ∨ sz = 0) →
        (f.1 == currentFileName) = false →
        env.readDoc (joinPath dirUri f.1) = Except.error () →
        getCurrentDirFilteredContextGo env dirUri currentFileName fileNameWithoutExt
          maxFiles (f :: rest) acc = Except.ok out →
        List.IsPrefix (acc ++ getContextMessageWithResponse
          (env.populate dirScanTemplateText (env.truncate "")
            (env.relPath (joinPath dirUri f.1)))
          { fileName := env.relPath (joinPath dirUri f.1) }) out)
    ∧ (∀ (env : ScanEnv) (dirUri currentFileName : String) (maxFiles : Nat)
        (f : String × FileType) (sz : Nat),
        env.stat (joinPath dirUri f.1) = Except.ok sz →
        ¬(sz > 1000000 ∨ sz = 0) →
        (f.1 == currentFileName) = false →
        env.readDoc (joinPath dirUri f.1) = Except.error () →
        getCurrentDirFilteredContext env dirUri [f] currentFileName maxFiles =
          Except.ok (getContextMessageWithResponse
            (env.populate dirScanTemplateText (env.truncate "")
              (env.relPath (joinPath dirUri f.1)))
            { fileName := env.relPath (joinPath dirUri f.1) })) := by
  refine ⟨?_, ?_, ?_⟩
  · intro env dirUri currentFileName maxFiles filesInDir hstat
    exact getCurrentDirFilteredContextGo_isOk env dirUri currentFileName
      (currentFileBaseName currentFileName) maxFiles filesInDir [] hstat
  · intro env dirUri currentFileName fileNameWithoutExt maxFiles f rest acc out sz
      hstat hsz hne hread hout
    have hdec : decodeVSCodeTextDoc env (joinPath dirUri f.1) = "" := by
      simp [decodeVSCodeTextDoc, hread]
    simp only [getCurrentDirFilteredContextGo, hstat, hne, if_neg hsz, Bool.false_eq_true,
      if_false, hdec] at hout
    split at hout
    · injection hout with h
      subst h
      exact List.prefix_rfl
    · split at hout
      · injection hout with h
        subst h
        exact List.prefix_rfl
      · exact getCurrentDirFilteredContextGo_acc_persists env dirUri currentFileName
          fileNameWithoutExt maxFiles rest _ out hout
  · intro env dirUri currentFileName maxFiles f sz hstat hsz hne hread
    have hdec : decodeVSCodeTextDoc env (joinPath dirUri f.1) = "" := by
      simp [decodeVSCodeTextDoc, hread]
    unfold getCurrentDirFilteredContext
    simp only [getCurrentDirFilteredContextGo, hstat, hne, if_neg hsz, Bool.false_eq_true,
      if_false, hdec, List.nil_append]
    split
    · rfl
    · split
      · rfl
      · rfl

/-- The pair accumulated before the C8 witness's read-error candidate is
reached. -/
def c8WitnessPrior : List ContextMessage :=
  getContextMessageWithResponse (dirScanTemplateText ++ "code" ++ "d/p.ts")
    { fileName := "d/p.ts" }

/-- The full output of the C8 witness's scan: the prior pair, then the
empty-content pair of the unreadable `r.ts`, then the pair of the
following `b.ts`. -/
def c8WitnessOut : List ContextMessage :=
  c8WitnessPrior
    ++ getContextMessageWithResponse (dirScanTemplateText ++ "" ++ "d/r.ts")
      { fileName := "d/r.ts" }
    ++ getContextMessageWithResponse (dirScanTemplateText ++ "code" ++ "d/b.ts")
      { fileName := "d/b.ts" }

/-- C8 witness: the unreadable `r.ts`, reached mid-scan with one pair
already accumulated and `b.ts` still pending, contributes its
empty-content pair, which persists as a prefix of the scan's successful
four-pair result. -/
theorem c8_amended_error_policy_witness :
    List.IsPrefix (c8WitnessPrior ++ getContextMessageWithResponse
      (readErrorScanEnv.populate dirScanTemplateText (readErrorScanEnv.truncate "")
        (readErrorScanEnv.relPath (joinPath "d" "r.ts")))
      { fileName := readErrorScanEnv.relPath (joinPath "d" "r.ts") })
      c8WitnessOut :=
  c8_amended_error_policy.2.1 readErrorScanEnv "d" "cur.ts" (currentFileBaseName "cur.ts")
    5 ("r.ts", FileType.file) [("b.ts", FileType.file)] c8WitnessPrior c8WitnessOut 10
    (by decide) (by omega) (by decide) (by decide) (by decide)

/-! ## Workspace search claims -/

/-- C7: when the underlying pattern search (run under the enforced
20-second cancellation deadline) rejects, or resolves with no result as a
cancelled search does, `findVSCodeFiles` returns the empty list instead
of propagating the failure. -/
theorem c7_search_error_or_timeout_returns_empty (search : SearchFn) (globalPattern : String)
    (excludePattern : Option String) (maxResults : Nat)
    (h : search globalPattern (excludePattern.getD defaultExcludePattern) maxResults 20000 =
        Except.error ()
      ∨ search globalPattern (excludePattern.getD defaultExcludePattern) maxResults 20000 =
        Except.ok none) :
    findVSCodeFiles search globalPattern excludePattern maxResults = [] := by
  unfold findVSCodeFiles
  rcases h with h | h <;> rw [h]

/-- A search capability that always rejects. -/
def failingSearch : SearchFn := fun _ _ _ _ => Except.error ()

/-- A search capability that always times out (resolves with no result). -/
def timeoutSearch : SearchFn := fun _ _ _ _ => Except.ok none

/-- C7 witness: a rejecting search and a timed-out search both yield `[]`. -/
theorem c7_search_error_or_timeout_returns_empty_witness :
    findVSCodeFiles failingSearch "**/*test*.ts" none 5 = []
    ∧ findVSCodeFiles timeoutSearch "**/*test*.ts" none 5 = [] :=
  ⟨c7_search_error_or_timeout_returns_empty failingSearch "**/*test*.ts" none 5 (Or.inl rfl),
   c7_search_error_or_timeout_returns_empty timeoutSearch "**/*test*.ts" none 5 (Or.inr rfl)⟩

/-- C9: the search pattern generated for `bar.ts` (without the
`allTestFiles` flag) glob-matches each of the five test-file naming
conventions. -/
theorem c9_test_search_pattern_matches_conventions :
    globMatchFull (createVSCodeTestSearchPattern "bar.ts") "bar.test.ts" = true
    ∧ globMatchFull (createVSCodeTestSearchPattern "bar.ts") "bar_test.ts" = true
    ∧ globMatchFull (createVSCodeTestSearchPattern "bar.ts") "test_bar.ts" = true
    ∧ globMatchFull (createVSCodeTestSearchPattern "bar.ts") "test.bar.ts" = true
    ∧ globMatchFull (createVSCodeTestSearchPattern "bar.ts") "barTest.ts" = true :=
  ⟨by decide, by decide, by decide, by decide, by decide⟩

/-! ## The default exclude pattern (C10) -/

/-- A path segment naming a dot-directory, `node_modules`, or a `snap*`
directory. -/
def badDirSeg (seg : List Char) : Bool :=
  isPrefixList ['.'] seg || seg == ("node_modules").data || isPrefixList ("snap").data seg

/-- A list is among its own non-separator tails. -/
theorem self_mem_nonSlashTails (s : List Char) : s ∈ nonSlashTails s := by
  cases s <;> simp [nonSlashTails]

/-- Dropping a slash-free prefix stays within the non-separator tails. -/
theorem mem_nonSlashTails_append (a b : List Char) (ha : '/' ∉ a) :
    b ∈ nonSlashTails (a ++ b) := by
  induction a with
  | nil => simpa using self_mem_nonSlashTails b
  | cons c a' ih =>
    simp only [List.mem_cons, not_or] at ha
    have hc : (c == '/') = false := by
      simp only [beq_eq_false_iff_ne]
      exact fun h => ha.1 h.symm
    simp only [List.cons_append, nonSlashTails, hc, if_false]
    exact List.mem_cons_of_mem _ (ih ha.2)

/-- The suffixes after a leading slash-free segment. -/
theorem afterSlashes_append_no_slash (q r : List Char) (hq : '/' ∉ q) :
    afterSlashes (q ++ ('/' :: r)) = r :: afterSlashes r := by
  induction q with
  | nil => simp [afterSlashes]
  | cons c q' ih =>
    simp only [List.mem_cons, not_or] at hq
    have hc : (c == '/') = false := by
      simp only [beq_eq_false_iff_ne]
      exact fun h => hq.1 h.symm
    simp [afterSlashes, hc, ih hq.2]

/-- A suffix placed after whole slash-terminated segments is a segment
start of the full path. -/
theorem mem_segStarts_flatten (pre : List (List Char)) (t : List Char)
    (hpre : ∀ q ∈ pre, '/' ∉ q) :
    t ∈ segStarts ((pre.map (fun q => q ++ ['/'])).flatten ++ t) := by
  induction pre with
  | nil => simp [segStarts]
  | cons q pre' ih =>
    have hq : '/' ∉ q := hpre q (List.mem_cons_self q pre')
    have hpre' : ∀ p ∈ pre', '/' ∉ p := fun p hp => hpre p (List.mem_cons_of_mem q hp)
    have hassoc : ((q :: pre').map (fun q => q ++ ['/'])).flatten ++ t =
        q ++ ('/' :: ((pre'.map (fun q => q ++ ['/'])).flatten ++ t)) := by
      simp [List.append_assoc]
    rw [hassoc, segStarts, afterSlashes_append_no_slash q _ hq]
    have hmem := ih hpre'
    rw [segStarts] at hmem
    exact List.mem_cons_of_mem _ hmem

/-- Matching one literal (non-star) pattern character. -/
theorem globMatch_cons_ne_star (c : Char) (hc : c ≠ '*') (ps : List Char) (d : Char)
    (ds : List Char) :
    globMatch (c :: ps) (d :: ds) = (c == d && globMatch ps ds) :=
  globMatch.eq_6 c ps d ds (fun _ h _ => hc h) (fun h _ => hc h) hc

/-- Matching a star-free literal prefix consumes it on both sides. -/
theorem globMatch_append_lit (ps s : List Char) :
    ∀ (lit : List Char), '*' ∉ lit →
      globMatch (lit ++ ps) (lit ++ s) = globMatch ps s
  | [], _ => rfl
  | c :: l, hstar => by
    simp only [List.mem_cons, not_or] at hstar
    have hc : c ≠ '*' := fun h => hstar.1 h.symm
    rw [List.cons_append, List.cons_append, globMatch_cons_ne_star c hc,
      globMatch_append_lit ps s l hstar.2]
    simp

/-- `*​/**` matches a slash-free remainder of a segment followed by a
separator and anything after it. -/
theorem globMatch_star_slash_tail (a post : List Char) (ha : '/' ∉ a) :
    globMatch ('*' :: '/' :: '*' :: '*' :: []) (a ++ ('/' :: post)) = true := by
  have hmem : ('/' :: post) ∈ nonSlashTails (a ++ ('/' :: post)) :=
    mem_nonSlashTails_append a ('/' :: post) ha
  have hone : globMatch ('/' :: '*' :: '*' :: []) ('/' :: post) = true := by
    rw [globMatch_cons_ne_star '/' (by decide), globMatch.eq_3]
    simp
  rw [globMatch.eq_4 _ _ (by intro t h; injection h with h1; exact absurd h1 (by decide))
    (by intro h; injection h with h1; exact absurd h1 (by decide))]
  rw [List.any_eq_true]
  exact ⟨'/' :: post, hmem, hone⟩

/-- A Boolean list-prefix test yields a decomposition. -/
theorem isPrefixList_exists {α : Type} [BEq α] [LawfulBEq α] :
    ∀ (p s : List α), isPrefixList p s = true → ∃ t, s = p ++ t
  | [], s => fun _ => ⟨s, rfl⟩
  | a :: as, [] => by simp [isPrefixList]
  | a :: as, b :: bs => by
    simp only [isPrefixList, Bool.and_eq_true, beq_iff_eq]
    rintro ⟨rfl, h⟩
    obtain ⟨t, ht⟩ := isPrefixList_exists as bs h
    exact ⟨t, by simp [ht]⟩

/-- The default exclude pattern matches every path holding a dot-directory,
`node_modules`, or `snap*` segment with content after it. -/
theorem globMatchFull_defaultExclude_bad_seg (pre : List (List Char)) (seg post : List Char)
    (hpre : ∀ q ∈ pre, '/' ∉ q) (hseg : '/' ∉ seg) (hbad : badDirSeg seg = true) :
    globMatchFull defaultExcludePattern
      (String.mk ((pre.map (fun q => q ++ ['/'])).flatten ++ (seg ++ ('/' :: post)))) =
      true := by
  have hexp : expandBraces defaultExcludePattern.data =
      [ '*' :: '*' :: '/' :: (['.'] ++ ('*' :: '/' :: '*' :: '*' :: [])),
        '*' :: '*' :: '/' :: (("node_modules").data ++ ('/' :: '*' :: '*' :: [])),
        '*' :: '*' :: '/' :: (("snap").data ++ ('*' :: '/' :: '*' :: '*' :: [])) ] := by
    decide
  have hmem : (seg ++ ('/' :: post)) ∈
      segStarts ((pre.map (fun q => q ++ ['/'])).flatten ++ (seg ++ ('/' :: post))) :=
    mem_segStarts_flatten pre _ hpre
  show (expandBraces defaultExcludePattern.data).any
    (fun p => globMatch p
      ((pre.map (fun q => q ++ ['/'])).flatten ++ (seg ++ ('/' :: post)))) = true
  rw [hexp]
  simp only [List.any_cons, List.any_nil, Bool.or_false, Bool.or_eq_true]
  simp only [badDirSeg, Bool.or_eq_true] at hbad
  rcases hbad with (hdot | hnm) | hsnap
  · left
    rw [globMatch.eq_2, List.any_eq_true]
    obtain ⟨t, ht⟩ := isPrefixList_exists _ _ hdot
    subst ht
    have ht' : '/' ∉ t := by
      simp only [List.singleton_append, List.mem_cons, not_or] at hseg
      exact hseg.2
    refine ⟨_, hmem, ?_⟩
    have hshape : ((['.'] ++ t) ++ ('/' :: post)) = ['.'] ++ (t ++ ('/' :: post)) := by
      simp
    rw [hshape, globMatch_append_lit _ _ ['.'] (by decide)]
    exact globMatch_star_slash_tail t post ht'
  · right
    left
    rw [globMatch.eq_2, List.any_eq_true]
    have hseg' : seg = ("node_modules").data := by simpa using hnm
    subst hseg'
    refine ⟨_, hmem, ?_⟩
    rw [globMatch_append_lit _ _ (("node_modules").data) (by decide),
      globMatch_cons_ne_star '/' (by decide), globMatch.eq_3]
    simp
  · right
    right
    rw [globMatch.eq_2, List.any_eq_true]
    obtain ⟨t, ht⟩ := isPrefixList_exists _ _ hsnap
    subst ht
    have ht' : '/' ∉ t := by
      simp only [List.mem_append, not_or] at hseg
      exact hseg.2
    refine ⟨_, hmem, ?_⟩
    have hshape : ((("snap").data ++ t) ++ ('/' :: post)) =
        ("snap").data ++ (t ++ ('/' :: post)) := by
      simp
    rw [hshape, globMatch_append_lit _ _ (("snap").data) (by decide)]
    exact globMatch_star_slash_tail t post ht'

/-- C10: a search issued without an explicit exclude pattern runs under
the default exclude `**/\x7b.*,node_modules,snap*\x7d/**`, so — for a search
capability that honours its exclude pattern — no returned file lies
inside a dot-directory, `node_modules`, or `snap*` directory. -/
theorem c10_default_exclude_applied (search : SearchFn) (globalPattern : String)
    (maxResults : Nat)
    (hresp : ∀ (p e : String) (m : Nat) (fs : List String),
      search p e m 20000 = Except.ok (some fs) → ∀ f ∈ fs, globMatchFull e f = false)
    (f : String) (hf : f ∈ findVSCodeFiles search globalPattern none maxResults)
    (pre : List (List Char)) (seg post : List Char)
    (hpre : ∀ q ∈ pre, '/' ∉ q) (hseg : '/' ∉ seg)
    (hdecomp : f.data = (pre.map (fun q => q ++ ['/'])).flatten ++ (seg ++ ('/' :: post))) :
    badDirSeg seg = false := by
  unfold findVSCodeFiles at hf
  simp only [Option.getD] at hf
  rcases hs : search globalPattern defaultExcludePattern maxResults 20000 with e | o
  · rw [hs] at hf
    simp at hf
  · rw [hs] at hf
    cases o with
    | none => simp at hf
    | some fs =>
      simp only [] at hf
      have hglob := hresp globalPattern defaultExcludePattern maxResults fs hs f hf
      by_contra hb
      have hb' : badDirSeg seg = true := by simpa using hb
      have hmatch := globMatchFull_defaultExclude_bad_seg pre seg post hpre hseg hb'
      rw [← hdecomp] at hmatch
      have hfk : String.mk f.data = f := rfl
      rw [hfk] at hmatch
      rw [hmatch] at hglob
      cases hglob

/-- A search capability returning a fixed candidate filtered by its
exclude pattern. -/
def filteringSearch : SearchFn := fun _ e _ _ =>
  Except.ok (some ((["src/app.ts"]).filter (fun f => !(globMatchFull e f))))

/-- C10 witness: the candidate `src/app.ts` survives the default exclude,
and its leading segment `src` is indeed not a dot/`node_modules`/`snap*`
directory. -/
theorem c10_default_exclude_applied_witness : badDirSeg (("src").data) = false :=
  c10_default_exclude_applied filteringSearch "p" 3
    (fun p e m fs hfs f hf => by
      injection hfs with h1
      injection h1 with h2
      subst h2
      have hkeep := (List.mem_filter.mp hf).2
      simpa using hkeep)
    "src/app.ts" (by decide) [] (("src").data) (("app.ts").data)
    (by intro q hq; cases hq) (by decide) (by decide)
